import Mathlib

/-!
Shallow embedding of the vehicle speed-measurement core of this repository
(gpu_receiver.py together with the wire producer pi_stream.py).

Conventions of the embedding:
* pixel coordinates are integers (the source casts box coordinates with
  `map(int, box.xyxy[0])`);
* timestamps and speeds are rationals: `struct.pack`/`unpack` of a float64
  is lossless, and every arithmetic operation the source performs on
  timestamps and speeds (subtraction, division, comparison against the
  configured limit) is exact on the values used here, so the rational
  model tracks the float64 computation faithfully on these inputs;
* the external collaborators (cv2.imdecode, the YOLO detector, the color
  classifier) are parameters of the functions that call them, exactly as
  the spec designates them external;
* Python dicts become association lists in insertion order: updating a
  present key keeps its position, inserting a fresh key appends.
-/

namespace SpeedCore

/-! Configuration constants from the top of gpu_receiver.py. -/

def SPEED_LIMIT_MPH : ℚ := 15
def LINE1_POS : ℤ := 250
def LINE2_POS : ℤ := 875
def DISTANCE_FT : ℚ := 50
def MATCH_TOL : ℤ := 100
def MARGIN : ℤ := 20
def BOUNDARY_ORIENTATION : String := "vertical"

/-- A YOLO detection after the integer cast in the frame loop:
center `(cx, cy)` and bbox `(x1, y1, x2, y2)`. -/
structure Detection where
  cx : ℤ
  cy : ℤ
  x1 : ℤ
  y1 : ℤ
  x2 : ℤ
  y2 : ℤ
deriving DecidableEq, Repr

/-- The half-open crossing test of gpu_receiver.py:
`coord_prev < boundary_pos <= coord_curr`. -/
def crossed_boundary (coord_prev coord_curr boundary_pos : ℤ) : Bool :=
  decide (coord_prev < boundary_pos) && decide (boundary_pos ≤ coord_curr)

/-- The relevant coordinate of a detection center: `cx` when the
boundaries are vertical lines, `cy` when horizontal. -/
def relevantCoord (cx cy : ℤ) : ℤ :=
  if BOUNDARY_ORIENTATION = "vertical" then cx else cy

/-- Region-of-interest filter from the frame loop:
`LINE1_POS - MARGIN <= coord <= LINE2_POS + MARGIN`. -/
def inROI (d : Detection) : Bool :=
  decide (LINE1_POS - MARGIN ≤ relevantCoord d.cx d.cy) &&
  decide (relevantCoord d.cx d.cy ≤ LINE2_POS + MARGIN)

/-- The `roi_detections` list: the detections kept by the region filter. -/
def filterROI (dets : List Detection) : List Detection :=
  dets.filter inROI

/-- A track record, mirroring the per-track dict of gpu_receiver.py. -/
structure Track where
  center : ℤ × ℤ
  bbox : ℤ × ℤ × ℤ × ℤ
  started : Bool
  start_ts : Option ℚ
  color : Option String
  logged : Bool
deriving DecidableEq, Repr

/-- A measurement as emitted at finalization (log line / db row content). -/
structure Measurement where
  color : String
  mph : ℚ
  status : String
deriving DecidableEq, Repr

/-- Speed computation: `fps = DISTANCE_FT / dt; mph = fps * 3600 / 5280`. -/
def mphOf (dt : ℚ) : ℚ :=
  DISTANCE_FT / dt * 3600 / 5280

/-- Verdict: `status = "OKAY" if mph <= SPEED_LIMIT_MPH else "SLOW DOWN!!"`. -/
def statusOf (mph : ℚ) : String :=
  if mph ≤ SPEED_LIMIT_MPH then "OKAY" else "SLOW DOWN!!"

/-- Python truthiness of `info["color"] or "Unknown"`: `None` and the
empty string both fall back to `"Unknown"`. -/
def orUnknown : Option String → String
  | none => "Unknown"
  | some c => if c.length = 0 then "Unknown" else c

/-- The relevant coordinate of a stored track center, as read into
`coord_prev` before the center is overwritten. -/
def prevCoord (tr : Track) : ℤ :=
  if BOUNDARY_ORIENTATION = "vertical" then tr.center.1 else tr.center.2

/-- Position update: `info["center"] = (cx, cy); info["bbox"] = (x1, y1, x2, y2)`. -/
def applyDet (d : Detection) (info : Track) : Track :=
  { info with center := (d.cx, d.cy), bbox := (d.x1, d.y1, d.x2, d.y2) }

/-- The arming branch: an unarmed track crossing LINE1_POS records
`started`, `start_ts` and the sampled color. -/
def armStep (classify : Detection → String) (ts : ℚ) (d : Detection)
    (coord_prev coord_curr : ℤ) (info : Track) : Track :=
  if !info.started && crossed_boundary coord_prev coord_curr LINE1_POS then
    { info with started := true, start_ts := some ts, color := some (classify d) }
  else info

/-- The finalize branch: an armed, not-yet-logged track crossing LINE2_POS
computes `dt = ts - start_ts`, emits a measurement only when `dt > 0`, and
marks the track `logged` in either case (the assignment sits outside the
`dt > 0` guard in the source).  `start_ts.getD 0` totalizes a read that is
always `some` on states reachable from track creation. -/
def finalizeStep (ts : ℚ) (coord_prev coord_curr : ℤ) (info : Track) :
    Track × List Measurement :=
  if info.started && !info.logged && crossed_boundary coord_prev coord_curr LINE2_POS then
    ({ info with logged := true },
      if 0 < ts - info.start_ts.getD 0 then
        [{ color := orUnknown info.color,
           mph := mphOf (ts - info.start_ts.getD 0),
           status := statusOf (mphOf (ts - info.start_ts.getD 0)) }]
      else [])
  else (info, [])

/-- One pass of the per-track body of the detection loop (source lines
199..232): save `coord_prev`, overwrite center and bbox, then run the
arming and finalize branches in order. -/
def updateTrack (classify : Detection → String) (ts : ℚ) (d : Detection)
    (info : Track) : Track × List Measurement :=
  finalizeStep ts (prevCoord info) (relevantCoord d.cx d.cy)
    (armStep classify ts d (prevCoord info) (relevantCoord d.cx d.cy) (applyDet d info))

/-- Feeding a single track a sequence of timestamped detections, collecting
every measurement it emits. -/
def runTrack (classify : Detection → String) :
    Track → List (ℚ × Detection) → Track × List Measurement
  | tr, [] => (tr, [])
  | tr, s :: rest =>
      let r := updateTrack classify s.1 s.2 tr
      let rr := runTrack classify r.1 rest
      (rr.1, r.2 ++ rr.2)

/-- Convenience constructor for a concrete detection centered at
`(cx, cy)` with a 40x40 bbox. -/
def detAt (cx cy : ℤ) : Detection :=
  { cx := cx, cy := cy, x1 := cx - 20, y1 := cy - 20, x2 := cx + 20, y2 := cy + 20 }

/-- A concrete classifier standing in for get_dominant_color. -/
def classify0 : Detection → String := fun _ => "Red"

/-- The per-connection mutable state of main(): the tracks dict (in
insertion order) and the next-identity counter. -/
structure SState where
  tracks : List (ℕ × Track)
  next_id : ℕ
deriving DecidableEq, Repr

/-- Initial state `next_id = 0; tracks = \x7b\x7d` at the start of each main() call. -/
def initState : SState :=
  { tracks := [], next_id := 0 }

/-- Tolerance test `abs(cx - px) < MATCH_TOL and abs(cy - py) < MATCH_TOL`. -/
def withinTol (tr : Track) (d : Detection) : Bool :=
  decide (|d.cx - tr.center.1| < MATCH_TOL) && decide (|d.cy - tr.center.2| < MATCH_TOL)

/-- The matching scan: the first track in dict order within tolerance of
the detection (the source breaks out of the scan at the first hit). -/
def matchTrack (tracks : List (ℕ × Track)) (d : Detection) : Option ℕ :=
  (tracks.find? fun p => withinTol p.2 d).map Prod.fst

/-- The fresh track dict inserted on a failed match. -/
def newTrack (d : Detection) : Track :=
  { center := (d.cx, d.cy), bbox := (d.x1, d.y1, d.x2, d.y2),
    started := false, start_ts := none, color := none, logged := false }

/-- In-place update of the dict entry at a key: position preserved. -/
def updateAssoc (tracks : List (ℕ × Track)) (tid : ℕ) (tr : Track) :
    List (ℕ × Track) :=
  tracks.map fun p => if p.1 = tid then (p.1, tr) else p

/-- Key order of the `updated` dict: first assignment appends, a repeated
assignment keeps the original position. -/
def touch (touched : List ℕ) (tid : ℕ) : List ℕ :=
  if tid ∈ touched then touched else touched ++ [tid]

/-- The accumulator of the per-frame detection loop: the evolving state,
the key order of the `updated` dict, the measurements emitted so far, and
(as instrumentation) the identities created so far this frame. -/
structure FrameAcc where
  st : SState
  touched : List ℕ
  meas : List Measurement
  created : List ℕ
deriving DecidableEq, Repr

/-- One iteration of the detection loop (source lines 181..232): match or
create, then run the per-track body. -/
def processDet (classify : Detection → String) (ts : ℚ) (acc : FrameAcc)
    (d : Detection) : FrameAcc :=
  match matchTrack acc.st.tracks d with
  | some tid =>
      let info := (acc.st.tracks.lookup tid).getD (newTrack d)
      let r := updateTrack classify ts d info
      { st := { acc.st with tracks := updateAssoc acc.st.tracks tid r.1 },
        touched := touch acc.touched tid,
        meas := acc.meas ++ r.2,
        created := acc.created }
  | none =>
      let tid := acc.st.next_id
      let r := updateTrack classify ts d (newTrack d)
      { st := { tracks := acc.st.tracks ++ [(tid, r.1)], next_id := tid + 1 },
        touched := touch acc.touched tid,
        meas := acc.meas ++ r.2,
        created := acc.created ++ [tid] }

/-- Result of one frame: new state, measurements, created identities. -/
structure FrameResult where
  st : SState
  meas : List Measurement
  created : List ℕ
deriving DecidableEq, Repr

/-- One frame of the tracking loop over already-filtered detections:
fold the detection loop, then `tracks = updated` — only the tracks
touched this frame survive, in first-touch order, with their final
values. -/
def processFrame (classify : Detection → String) (ts : ℚ)
    (dets : List Detection) (st : SState) : FrameResult :=
  let acc := dets.foldl (processDet classify ts) ⟨st, [], [], []⟩
  { st := { tracks := acc.touched.filterMap fun tid =>
              (acc.st.tracks.lookup tid).map fun tr => (tid, tr),
            next_id := acc.st.next_id },
    meas := acc.meas,
    created := acc.created }

/-- One loop-body iteration seen from the decoded payload: if
cv2.imdecode fails (`frame is None`) the frame is skipped with `continue`
and nothing changes; otherwise the detector runs, the region filter is
applied and the frame is processed.  `decodeImage` and `detect` are the
external collaborators. -/
def loopBody {Img : Type} (decodeImage : List ℕ → Option Img)
    (detect : Img → List Detection) (classify : Detection → String)
    (ts : ℚ) (jpg : List ℕ) (st : SState) : FrameResult :=
  match decodeImage jpg with
  | none => ⟨st, [], []⟩
  | some img => processFrame classify ts (filterROI (detect img)) st

/-- The cumulative outcome of one producer connection. -/
structure SessionRun where
  st : SState
  meas : List Measurement
  created : List ℕ
deriving DecidableEq, Repr

/-- Advance a session by one decoded frame. -/
def sessionStep (classify : Detection → String) (acc : SessionRun)
    (fr : ℚ × List Detection) : SessionRun :=
  let r := processFrame classify fr.1 (filterROI fr.2) acc.st
  { st := r.st, meas := acc.meas ++ r.meas, created := acc.created ++ r.created }

/-- One call of main(): state starts at initState (`next_id = 0`,
empty track dict) and the decoded frames are processed in order.  The
outer `while True` of the source re-invokes this whole function for every
new producer connection. -/
def runSession (classify : Detection → String)
    (frames : List (ℚ × List Detection)) : SessionRun :=
  frames.foldl (sessionStep classify) ⟨initState, [], []⟩

/-!
The wire channel of pi_stream.py / gpu_receiver.py.

A message is `struct.pack("dI", ts, len(payload)) + payload`: a 12-byte
header of one float64 and one uint32, then the payload bytes.  Packing and
unpacking a float64 is lossless and `len(payload)` always fits the uint32
here, so the embedding models the 8-byte float64 group as one atomic unit
carrying its rational value and the 4-byte length group likewise, while
payload bytes stay individual.
-/

/-- One unit of the byte stream: the float64 timestamp group, the uint32
length group, or a single payload byte. -/
inductive WireUnit
  | tsU (t : ℚ)
  | lenU (n : ℕ)
  | byteU (b : ℕ)
deriving DecidableEq, Repr

/-- pi_stream.py line 83..84: `header = struct.pack("dI", ts, len(payload));
sock.sendall(header + payload)`. -/
def encodeFrame (ts : ℚ) (payload : List ℕ) : List WireUnit :=
  WireUnit.tsU ts :: WireUnit.lenU payload.length :: payload.map WireUnit.byteU

/-- Read exactly `n` payload bytes off the front of the buffer. -/
def takeBytes : ℕ → List WireUnit → Option (List ℕ × List WireUnit)
  | 0, rest => some ([], rest)
  | n + 1, WireUnit.byteU b :: rest =>
      (takeBytes n rest).map fun p => (b :: p.1, p.2)
  | _ + 1, _ => none

/-- gpu_receiver.py lines 141..152: unpack the header, compute
`ts = ts_ns / 1e9`, then split `size` payload bytes off the buffer,
returning the frame and the remaining buffer. -/
def decodeFrame (buf : List WireUnit) : Option ((ℚ × List ℕ) × List WireUnit) :=
  match buf with
  | WireUnit.tsU tsns :: WireUnit.lenU size :: rest =>
      (takeBytes size rest).map fun p => ((tsns / 1000000000, p.1), p.2)
  | _ => none

/-! Concrete fixtures and counting helpers used by the theorems below. -/

/-- Number of boundary crossings over consecutive per-frame coordinate
values of a sequence. -/
def countCrossings (seq : List ℤ) (b : ℤ) : ℕ :=
  (seq.zip seq.tail).countP fun p => crossed_boundary p.1 p.2 b

/-- A track armed at time 10, sitting at x = 800, not yet finalized. -/
def armedTrack800 : Track :=
  { center := (800, 100), bbox := (780, 80, 820, 120),
    started := true, start_ts := some 10, color := some "Red", logged := false }

/-- A track that has already emitted its measurement. -/
def finalizedTrack0 : Track :=
  { center := (900, 100), bbox := (880, 80, 920, 120),
    started := true, start_ts := some 10, color := some "Red", logged := true }

/-- Two full boundary-1-then-boundary-2 crossing sequences for a track
created at x = 200: cross 250 and 875, swing back, cross both again. -/
def doubleCrossSteps : List (ℚ × Detection) :=
  [(2, detAt 300 100), (4, detAt 900 100), (6, detAt 200 100),
   (8, detAt 300 100), (10, detAt 900 100)]

/-- A one-track frame accumulator used to exercise the matched branch of
the detection loop. -/
def accW : FrameAcc :=
  ⟨⟨[(0, newTrack (detAt 300 100))], 1⟩, [], [], []⟩

/-- The frame accumulator at the very start of the first frame. -/
def accEmpty : FrameAcc :=
  ⟨initState, [], [], []⟩

/-- Identity-counter invariant carried through one frame's detection
loop, relative to the counter value n0 at the start of the frame. -/
def IdAccInv (n0 : ℕ) (a : FrameAcc) : Prop :=
  a.created.Sorted (· < ·) ∧
  (∀ x ∈ a.created, n0 ≤ x ∧ x < a.st.next_id) ∧
  n0 ≤ a.st.next_id ∧
  (∀ p ∈ a.st.tracks, p.1 < a.st.next_id)

/-- Identity-counter invariant of a whole session run. -/
def SessOk (s : SessionRun) : Prop :=
  s.created.Sorted (· < ·) ∧
  (∀ x ∈ s.created, x < s.st.next_id) ∧
  (∀ p ∈ s.st.tracks, p.1 < s.st.next_id)

/-! Helper lemmas. -/

lemma crossed_boundary_iff (p c b : ℤ) :
    crossed_boundary p c b = true ↔ p < b ∧ b ≤ c := by
  simp [crossed_boundary]

lemma crossed_boundary_self (c b : ℤ) : crossed_boundary c c b = false := by
  simp only [crossed_boundary, Bool.and_eq_false_iff, decide_eq_false_iff_not, not_lt, not_le]
  omega

lemma takeBytes_map_byteU (p : List ℕ) :
    takeBytes p.length (p.map WireUnit.byteU) = some (p, []) := by
  induction p with
  | nil => rfl
  | cons a q ih => simp [takeBytes, ih]

lemma decodeFrame_encodeFrame (t : ℚ) (p : List ℕ) :
    decodeFrame (encodeFrame t p) = some ((t / 1000000000, p), []) := by
  simp [decodeFrame, encodeFrame, takeBytes_map_byteU]

/-- C4: the boundary-crossing predicate is the half-open test
prev < boundary <= curr, and a coordinate taking the consecutive values
b-1, b, b+1 crosses b exactly once. -/
theorem crossing_halfopen :
    (∀ prev curr b : ℤ, crossed_boundary prev curr b = true ↔ prev < b ∧ b ≤ curr) ∧
    (∀ b : ℤ, countCrossings [b - 1, b, b + 1] b = 1) := by
  refine ⟨crossed_boundary_iff, fun b => ?_⟩
  have h1 : crossed_boundary (b - 1) b b = true := by
    rw [crossed_boundary_iff]; omega
  have h2 : crossed_boundary b (b + 1) b = false := by
    simp only [crossed_boundary, Bool.and_eq_false_iff, decide_eq_false_iff_not, not_lt, not_le]
    omega
  simp [countCrossings, List.countP_cons, h1, h2]

/-- C7: the region filter keeps a detection iff its relevant coordinate
(cx, the boundaries being vertical) lies in the closed interval
[LINE1_POS - MARGIN, LINE2_POS + MARGIN]; the coordinate
LINE1_POS - MARGIN - 1 is excluded and LINE1_POS - MARGIN is included. -/
theorem region_filter_interval :
    (∀ d : Detection, inROI d = true ↔
        LINE1_POS - MARGIN ≤ d.cx ∧ d.cx ≤ LINE2_POS + MARGIN) ∧
    inROI (detAt (LINE1_POS - MARGIN - 1) 100) = false ∧
    inROI (detAt (LINE1_POS - MARGIN) 100) = true ∧
    (∀ dets : List Detection, filterROI dets = dets.filter inROI) := by
  refine ⟨fun d => ?_, by decide, by decide, fun dets => rfl⟩
  have hc : relevantCoord d.cx d.cy = d.cx := rfl
  simp [inROI, hc]

/-- C1: framing round trip.  The payload round-trips exactly, but the
decoded capture time is the encoded float64 timestamp divided by 1e9: the
producer packs seconds (time.time()) while the receiver treats the field
as nanoseconds, so a frame encoded at t = 1e9 s decodes to capture time
1 s, not t. -/
theorem framing_timestamp_divided :
    decodeFrame (encodeFrame 1000000000 [7, 8]) = some ((1, [7, 8]), []) ∧
    (∀ (t : ℚ) (p : List ℕ),
        decodeFrame (encodeFrame t p) = some ((t / 1000000000, p), [])) ∧
    (1 : ℚ) ≠ 1000000000 := by
  refine ⟨?_, decodeFrame_encodeFrame, by norm_num⟩
  rw [decodeFrame_encodeFrame]
  norm_num

/-- C9: a frame whose payload fails to decode is skipped: the tracker
state is returned unchanged, no measurement is emitted, no identity is
created, and the loop continues. -/
theorem undecodable_frame_skipped {Img : Type} (decodeImage : List ℕ → Option Img)
    (detect : Img → List Detection) (classify : Detection → String)
    (ts : ℚ) (jpg : List ℕ) (st : SState)
    (h : decodeImage jpg = none) :
    loopBody decodeImage detect classify ts jpg st = ⟨st, [], []⟩ := by
  simp [loopBody, h]

/-- Witness for undecodable_frame_skipped at a concrete decoder, payload
and state. -/
theorem undecodable_frame_skipped_witness :
    (fun _ : List ℕ => (none : Option Unit)) [3, 1] = none ∧
    loopBody (fun _ : List ℕ => (none : Option Unit)) (fun _ => []) classify0 7 [3, 1]
      initState = ⟨initState, [], []⟩ :=
  ⟨rfl, undecodable_frame_skipped _ _ _ _ _ _ rfl⟩

lemma updateTrack_finalize (classify : Detection → String) (ts s : ℚ)
    (d : Detection) (tr : Track)
    (h1 : tr.started = true) (h2 : tr.logged = false) (h3 : tr.start_ts = some s)
    (h4 : crossed_boundary (prevCoord tr) (relevantCoord d.cx d.cy) LINE2_POS = true) :
    updateTrack classify ts d tr =
      ({ applyDet d tr with logged := true },
        if 0 < ts - s then
          [{ color := orUnknown tr.color, mph := mphOf (ts - s),
             status := statusOf (mphOf (ts - s)) }]
        else []) := by
  unfold updateTrack armStep finalizeStep
  simp [applyDet, h1, h2, h3, h4]

/-- C2 (amended): on a boundary-2 crossing with non-positive elapsed time
the track emits no measurement, but it is nonetheless marked logged
(finalized) — the logged assignment sits outside the dt > 0 guard — so it
is not eligible to emit on a later frame. -/
theorem nonpositive_elapsed_finalizes_without_emitting
    (classify : Detection → String) (ts s : ℚ) (d : Detection) (tr : Track)
    (h1 : tr.started = true) (h2 : tr.logged = false) (h3 : tr.start_ts = some s)
    (h4 : crossed_boundary (prevCoord tr) (relevantCoord d.cx d.cy) LINE2_POS = true)
    (h5 : ts - s ≤ 0) :
    (updateTrack classify ts d tr).2 = [] ∧
    (updateTrack classify ts d tr).1.logged = true ∧
    (updateTrack classify ts d tr).1.started = true := by
  rw [updateTrack_finalize classify ts s d tr h1 h2 h3 h4]
  simp [not_lt.mpr h5, applyDet, h1]

/-- Witness for nonpositive_elapsed_finalizes_without_emitting: an armed
track at x = 800 crossing x = 875 with elapsed 10 - 10 = 0. -/
theorem nonpositive_elapsed_finalizes_without_emitting_witness :
    ((10 : ℚ) - 10 ≤ 0) ∧
    ((updateTrack classify0 10 (detAt 900 100) armedTrack800).2 = [] ∧
     (updateTrack classify0 10 (detAt 900 100) armedTrack800).1.logged = true ∧
     (updateTrack classify0 10 (detAt 900 100) armedTrack800).1.started = true) :=
  ⟨by norm_num,
   nonpositive_elapsed_finalizes_without_emitting classify0 10 10 (detAt 900 100)
     armedTrack800 rfl rfl rfl (by decide) (by norm_num)⟩

/-- C2 counterexample to the claim as stated: the armed track crossing
boundary 2 at elapsed 0 emits nothing yet ends up logged = true
(finalized), and a later legitimate re-crossing with positive elapsed
emits nothing either — it is not "still eligible". -/
theorem nonpositive_elapsed_counterexample :
    (updateTrack classify0 10 (detAt 900 100) armedTrack800).2 = [] ∧
    (updateTrack classify0 10 (detAt 900 100) armedTrack800).1.logged = true ∧
    (runTrack classify0 armedTrack800
      [(10, detAt 900 100), (12, detAt 800 100), (14, detAt 900 100)]).2 = [] := by
  norm_num [runTrack, updateTrack, finalizeStep, armStep, applyDet, prevCoord, relevantCoord,
    crossed_boundary, detAt, armedTrack800, mphOf, statusOf, orUnknown,
    BOUNDARY_ORIENTATION, LINE1_POS, LINE2_POS, DISTANCE_FT, SPEED_LIMIT_MPH]

/-- C5 (amended): a finalize with positive elapsed emits exactly one
measurement whose speed is (DISTANCE_FT / elapsed) * 3600 / 5280 and
whose status is "OKAY" iff the speed is at most SPEED_LIMIT_MPH
(equality at the limit included) and "SLOW DOWN!!" otherwise; at
distance 50 ft and elapsed 25/11 s the speed is exactly 15 mph. -/
theorem speed_formula_and_verdict
    (classify : Detection → String) (ts s : ℚ) (d : Detection) (tr : Track)
    (h1 : tr.started = true) (h2 : tr.logged = false) (h3 : tr.start_ts = some s)
    (h4 : crossed_boundary (prevCoord tr) (relevantCoord d.cx d.cy) LINE2_POS = true)
    (h5 : 0 < ts - s) :
    (updateTrack classify ts d tr).2 =
      [{ color := orUnknown tr.color,
         mph := DISTANCE_FT / (ts - s) * 3600 / 5280,
         status := if DISTANCE_FT / (ts - s) * 3600 / 5280 ≤ SPEED_LIMIT_MPH
                   then "OKAY" else "SLOW DOWN!!" }] ∧
    mphOf (25 / 11) = 15 ∧
    statusOf 15 = "OKAY" ∧
    (∀ m : ℚ, statusOf m = "OKAY" ↔ m ≤ SPEED_LIMIT_MPH) := by
  refine ⟨?_, by norm_num [mphOf, DISTANCE_FT], by norm_num [statusOf, SPEED_LIMIT_MPH], ?_⟩
  · rw [updateTrack_finalize classify ts s d tr h1 h2 h3 h4]
    simp [h5, mphOf, statusOf]
  · intro m
    unfold statusOf
    split
    · simpa
    · next hm => simpa using hm

/-- Witness for speed_formula_and_verdict: an armed track at x = 800
crossing x = 875 with elapsed 12 - 10 = 2 s. -/
theorem speed_formula_and_verdict_witness :
    ((0 : ℚ) < 12 - 10) ∧
    ((updateTrack classify0 12 (detAt 900 100) armedTrack800).2 =
      [{ color := orUnknown armedTrack800.color,
         mph := DISTANCE_FT / (12 - 10) * 3600 / 5280,
         status := if DISTANCE_FT / (12 - 10) * 3600 / 5280 ≤ SPEED_LIMIT_MPH
                   then "OKAY" else "SLOW DOWN!!" }] ∧
     mphOf (25 / 11) = 15 ∧
     statusOf 15 = "OKAY" ∧
     (∀ m : ℚ, statusOf m = "OKAY" ↔ m ≤ SPEED_LIMIT_MPH)) :=
  ⟨by norm_num,
   speed_formula_and_verdict classify0 12 10 (detAt 900 100) armedTrack800
     rfl rfl rfl (by decide) (by norm_num)⟩

/-- C5 counterexample to the claim as stated: the verdict strings the
code produces are "OKAY" and "SLOW DOWN!!", not "OK" and "OVER_LIMIT". -/
theorem verdict_string_counterexample :
    statusOf 10 = "OKAY" ∧ statusOf 10 ≠ "OK" ∧
    statusOf 20 = "SLOW DOWN!!" ∧ statusOf 20 ≠ "OVER_LIMIT" := by
  refine ⟨?_, ?_, ?_, ?_⟩ <;>
    norm_num [statusOf, SPEED_LIMIT_MPH] <;> decide

lemma updateTrack_logged_mono (classify : Detection → String) (ts : ℚ)
    (d : Detection) (tr : Track) (h : tr.logged = true) :
    (updateTrack classify ts d tr).1.logged = true ∧
    (updateTrack classify ts d tr).2 = [] := by
  unfold updateTrack finalizeStep
  have ha : (armStep classify ts d (prevCoord tr) (relevantCoord d.cx d.cy)
      (applyDet d tr)).logged = true := by
    unfold armStep
    split <;> simp [applyDet, h]
  simp [ha]

lemma updateTrack_emit_shape (classify : Detection → String) (ts : ℚ)
    (d : Detection) (tr : Track) :
    (updateTrack classify ts d tr).2 = [] ∨
    ((updateTrack classify ts d tr).2.length = 1 ∧
     (updateTrack classify ts d tr).1.logged = true) := by
  unfold updateTrack finalizeStep
  split
  · split
    · right
      exact ⟨rfl, rfl⟩
    · left
      rfl
  · left
    rfl

lemma runTrack_logged_emits_nothing (classify : Detection → String)
    (steps : List (ℚ × Detection)) :
    ∀ tr : Track, tr.logged = true → (runTrack classify tr steps).2 = [] := by
  induction steps with
  | nil => intro tr _; rfl
  | cons s rest ih =>
      intro tr h
      have hm := updateTrack_logged_mono classify s.1 s.2 tr h
      simp [runTrack, hm.2, ih _ hm.1]

lemma runTrack_length_le_one (classify : Detection → String)
    (steps : List (ℚ × Detection)) :
    ∀ tr : Track, (runTrack classify tr steps).2.length ≤ 1 := by
  induction steps with
  | nil => intro tr; simp [runTrack]
  | cons s rest ih =>
      intro tr
      rcases updateTrack_emit_shape classify s.1 s.2 tr with h | ⟨h1, h2⟩
      · simpa [runTrack, h] using ih _
      · have hr := runTrack_logged_emits_nothing classify rest _ h2
        simp [runTrack, hr, h1]

/-- C3: a track emits at most one measurement over any sequence of
updates, a finalized track never emits again, and the concrete
double-crossing sequence yields exactly one measurement. -/
theorem track_measures_at_most_once :
    (∀ (classify : Detection → String) (tr : Track) (steps : List (ℚ × Detection)),
        (runTrack classify tr steps).2.length ≤ 1 ∧
        (tr.logged = true → (runTrack classify tr steps).2 = [])) ∧
    (runTrack classify0 (newTrack (detAt 200 100)) doubleCrossSteps).2.length = 1 := by
  refine ⟨fun classify tr steps =>
    ⟨runTrack_length_le_one classify steps tr,
     fun h => runTrack_logged_emits_nothing classify steps tr h⟩, ?_⟩
  norm_num [runTrack, updateTrack, finalizeStep, armStep, applyDet, prevCoord,
    relevantCoord, crossed_boundary, newTrack, detAt, doubleCrossSteps, mphOf,
    statusOf, orUnknown, BOUNDARY_ORIENTATION, LINE1_POS, LINE2_POS, DISTANCE_FT,
    SPEED_LIMIT_MPH]

/-- Witness for track_measures_at_most_once: a finalized track fed one
further update emits nothing. -/
theorem track_measures_at_most_once_witness :
    finalizedTrack0.logged = true ∧
    (runTrack classify0 finalizedTrack0 [(5, detAt 300 100)]).2 = [] :=
  ⟨rfl, (track_measures_at_most_once.1 classify0 finalizedTrack0
      [(5, detAt 300 100)]).2 rfl⟩

/-- C10: the half-open test is false when prev = curr, so a track created
this frame — whose previous center is initialized to the detection's own
center — can neither arm nor finalize on its creation frame: it comes out
unarmed, unfinalized, and contributes no measurement. -/
theorem new_track_cannot_cross_on_creation
    (classify : Detection → String) (ts : ℚ) (acc : FrameAcc) (d : Detection)
    (h : matchTrack acc.st.tracks d = none) :
    (∀ c b : ℤ, crossed_boundary c c b = false) ∧
    (processDet classify ts acc d).st.tracks =
      acc.st.tracks ++ [(acc.st.next_id, (updateTrack classify ts d (newTrack d)).1)] ∧
    (updateTrack classify ts d (newTrack d)).1.started = false ∧
    (updateTrack classify ts d (newTrack d)).1.logged = false ∧
    (processDet classify ts acc d).meas = acc.meas := by
  have hprev : prevCoord (newTrack d) = relevantCoord d.cx d.cy := rfl
  have hupd : updateTrack classify ts d (newTrack d) = (applyDet d (newTrack d), []) := by
    unfold updateTrack armStep finalizeStep
    rw [hprev, crossed_boundary_self, crossed_boundary_self]
    simp [applyDet, newTrack]
  refine ⟨crossed_boundary_self, ?_, ?_, ?_, ?_⟩
  · simp [processDet, h]
  · rw [hupd]
    simp [applyDet, newTrack]
  · rw [hupd]
    simp [applyDet, newTrack]
  · simp [processDet, h, hupd]

/-- Witness for new_track_cannot_cross_on_creation: a detection arriving
on an empty track map. -/
theorem new_track_cannot_cross_on_creation_witness :
    matchTrack accEmpty.st.tracks (detAt 300 100) = none ∧
    ((∀ c b : ℤ, crossed_boundary c c b = false) ∧
     (processDet classify0 3 accEmpty (detAt 300 100)).st.tracks =
       accEmpty.st.tracks ++ [(accEmpty.st.next_id,
         (updateTrack classify0 3 (detAt 300 100) (newTrack (detAt 300 100))).1)] ∧
     (updateTrack classify0 3 (detAt 300 100) (newTrack (detAt 300 100))).1.started = false ∧
     (updateTrack classify0 3 (detAt 300 100) (newTrack (detAt 300 100))).1.logged = false ∧
     (processDet classify0 3 accEmpty (detAt 300 100)).meas = accEmpty.meas) :=
  ⟨rfl, new_track_cannot_cross_on_creation classify0 3 accEmpty (detAt 300 100) rfl⟩

lemma lookup_some_mem {l : List (ℕ × Track)} {k : ℕ} {v : Track}
    (h : l.lookup k = some v) : (k, v) ∈ l := by
  induction l with
  | nil => simp [List.lookup] at h
  | cons p rest ih =>
      rw [List.lookup] at h
      split at h
      · next heq =>
          cases h
          have hk : k = p.1 := by simpa using heq
          subst hk
          exact List.mem_cons_self _ _
      · exact List.mem_cons_of_mem _ (ih h)

lemma processDet_ids (classify : Detection → String) (ts : ℚ) (n0 : ℕ)
    (acc : FrameAcc) (d : Detection) (h : IdAccInv n0 acc) :
    IdAccInv n0 (processDet classify ts acc d) := by
  obtain ⟨hs, hb, hn, ht⟩ := h
  cases hm : matchTrack acc.st.tracks d with
  | some tid =>
      have hred : processDet classify ts acc d =
          ⟨⟨updateAssoc acc.st.tracks tid
              (updateTrack classify ts d ((acc.st.tracks.lookup tid).getD (newTrack d))).1,
            acc.st.next_id⟩,
           touch acc.touched tid,
           acc.meas ++ (updateTrack classify ts d ((acc.st.tracks.lookup tid).getD (newTrack d))).2,
           acc.created⟩ := by
        simp [processDet, hm]
      rw [hred]
      refine ⟨hs, hb, hn, ?_⟩
      intro p hp
      rw [updateAssoc, List.mem_map] at hp
      obtain ⟨q, hq, hpe⟩ := hp
      have hpq : p.1 = q.1 := by
        by_cases hqt : q.1 = tid
        · simp [hqt] at hpe
          rw [← hpe]
          exact hqt.symm
        · simp [hqt] at hpe
          rw [← hpe]
      rw [hpq]
      exact ht q hq
  | none =>
      have hred : processDet classify ts acc d =
          ⟨⟨acc.st.tracks ++ [(acc.st.next_id, (updateTrack classify ts d (newTrack d)).1)],
            acc.st.next_id + 1⟩,
           touch acc.touched acc.st.next_id,
           acc.meas ++ (updateTrack classify ts d (newTrack d)).2,
           acc.created ++ [acc.st.next_id]⟩ := by
        simp [processDet, hm]
      rw [hred]
      refine ⟨?_, ?_, ?_, ?_⟩
      · rw [List.Sorted, List.pairwise_append]
        refine ⟨hs, List.sorted_singleton _, ?_⟩
        intro a ha b hbm
        have hbn : b = acc.st.next_id := by simpa using hbm
        rw [hbn]
        exact (hb a ha).2
      · intro x hx
        rcases List.mem_append.mp hx with hx | hx
        · exact ⟨(hb x hx).1, lt_trans (hb x hx).2 (Nat.lt_succ_self _)⟩
        · have hxn : x = acc.st.next_id := by simpa using hx
          rw [hxn]
          exact ⟨hn, Nat.lt_succ_self _⟩
      · exact le_trans hn (Nat.le_succ _)
      · intro p hp
        rcases List.mem_append.mp hp with hp | hp
        · exact lt_trans (ht p hp) (Nat.lt_succ_self _)
        · have hpn : p = (acc.st.next_id, (updateTrack classify ts d (newTrack d)).1) := by
            simpa using hp
          rw [hpn]
          exact Nat.lt_succ_self _

lemma foldl_processDet_ids (classify : Detection → String) (ts : ℚ) (n0 : ℕ)
    (dets : List Detection) :
    ∀ acc : FrameAcc, IdAccInv n0 acc →
      IdAccInv n0 (dets.foldl (processDet classify ts) acc) := by
  induction dets with
  | nil => intro acc h; exact h
  | cons d rest ih =>
      intro acc h
      exact ih _ (processDet_ids classify ts n0 acc d h)

lemma processFrame_def (classify : Detection → String) (ts : ℚ)
    (dets : List Detection) (st : SState) :
    processFrame classify ts dets st =
      { st := { tracks := (dets.foldl (processDet classify ts)
                    ⟨st, [], [], []⟩).touched.filterMap fun tid =>
                  ((dets.foldl (processDet classify ts)
                    ⟨st, [], [], []⟩).st.tracks.lookup tid).map fun tr => (tid, tr),
                next_id := (dets.foldl (processDet classify ts) ⟨st, [], [], []⟩).st.next_id },
        meas := (dets.foldl (processDet classify ts) ⟨st, [], [], []⟩).meas,
        created := (dets.foldl (processDet classify ts) ⟨st, [], [], []⟩).created } := rfl

lemma processFrame_ids (classify : Detection → String) (ts : ℚ)
    (dets : List Detection) (st : SState)
    (h : ∀ p ∈ st.tracks, p.1 < st.next_id) :
    (processFrame classify ts dets st).created.Sorted (· < ·) ∧
    (∀ x ∈ (processFrame classify ts dets st).created,
        st.next_id ≤ x ∧ x < (processFrame classify ts dets st).st.next_id) ∧
    st.next_id ≤ (processFrame classify ts dets st).st.next_id ∧
    (∀ p ∈ (processFrame classify ts dets st).st.tracks,
        p.1 < (processFrame classify ts dets st).st.next_id) := by
  have h0 : IdAccInv st.next_id (⟨st, [], [], []⟩ : FrameAcc) := by
    refine ⟨List.sorted_nil, ?_, le_refl _, h⟩
    intro x hx
    simp at hx
  have hi := foldl_processDet_ids classify ts st.next_id dets _ h0
  obtain ⟨hs, hb, hn, ht⟩ := hi
  rw [processFrame_def]
  refine ⟨hs, hb, hn, ?_⟩
  intro p hp
  rw [List.mem_filterMap] at hp
  obtain ⟨tid, htid, hf⟩ := hp
  obtain ⟨tr, hl, hpe⟩ := Option.map_eq_some'.mp hf
  have hm := lookup_some_mem hl
  have hp1 : p.1 = tid := by rw [← hpe]
  rw [hp1]
  exact ht _ hm

lemma sessionStep_ok (classify : Detection → String) (s : SessionRun)
    (fr : ℚ × List Detection) (h : SessOk s) : SessOk (sessionStep classify s fr) := by
  obtain ⟨hs, hb, ht⟩ := h
  obtain ⟨hfs, hfb, hfn, hft⟩ := processFrame_ids classify fr.1 (filterROI fr.2) s.st ht
  refine ⟨?_, ?_, ?_⟩
  · show (s.created ++ (processFrame classify fr.1 (filterROI fr.2) s.st).created).Sorted (· < ·)
    rw [List.Sorted, List.pairwise_append]
    exact ⟨hs, hfs, fun a ha b hbm => lt_of_lt_of_le (hb a ha) (hfb b hbm).1⟩
  · intro x hx
    rcases List.mem_append.mp hx with hx | hx
    · exact lt_of_lt_of_le (hb x hx) hfn
    · exact (hfb x hx).2
  · exact hft

lemma foldl_sessionStep_ok (classify : Detection → String)
    (frames : List (ℚ × List Detection)) :
    ∀ s : SessionRun, SessOk s → SessOk (frames.foldl (sessionStep classify) s) := by
  induction frames with
  | nil => intro s h; exact h
  | cons fr rest ih =>
      intro s h
      exact ih _ (sessionStep_ok classify s fr h)

/-- C6 (amended): within a single producer connection the created track
identities form a strictly increasing sequence — unique, never reused,
each new id greater than every id previously issued — and the
next-identity counter starts at 0 for each connection. -/
theorem track_ids_unique_within_session (classify : Detection → String)
    (frames : List (ℚ × List Detection)) :
    ((runSession classify frames).created).Sorted (· < ·) ∧
    ((runSession classify frames).created).Nodup ∧
    initState.next_id = 0 := by
  have h0 : SessOk (⟨initState, [], []⟩ : SessionRun) := by
    refine ⟨List.sorted_nil, ?_, ?_⟩ <;> intro x hx <;> simp [initState] at hx
  have h : SessOk (runSession classify frames) :=
    foldl_sessionStep_ok classify frames _ h0
  exact ⟨h.1, h.1.nodup, rfl⟩

/-- C6 counterexample to the claim as stated: the identity counter is
re-initialized to 0 by each main() call, so the first track of one
connection and the first track of the next both receive id 0 — ids are
not unique for the process lifetime. -/
theorem track_ids_reset_counterexample :
    (runSession classify0 [(1, [detAt 300 100])]).created = [0] ∧
    (runSession classify0 [(2, [detAt 500 100])]).created = [0] := by
  constructor <;> decide

lemma matchTrack_some_first (tracks : List (ℕ × Track)) (d : Detection) (tid : ℕ)
    (h : matchTrack tracks d = some tid) :
    ∃ pre tr suf, tracks = pre ++ (tid, tr) :: suf ∧ withinTol tr d = true ∧
      ∀ p ∈ pre, withinTol p.2 d = false := by
  induction tracks with
  | nil => simp [matchTrack] at h
  | cons q rest ih =>
      rw [matchTrack] at h
      simp only [List.find?] at h
      by_cases hw : withinTol q.2 d = true
      · rw [hw] at h
        have hq : q.1 = tid := by simpa using h
        refine ⟨[], q.2, rest, ?_, hw, ?_⟩
        · rw [← hq]
          rfl
        · intro p hp
          simp at hp
      · have hw' : withinTol q.2 d = false := Bool.eq_false_iff.mpr hw
        have h' : matchTrack rest d = some tid := by
          rw [hw'] at h
          rw [matchTrack]
          exact h
        obtain ⟨pre, tr, suf, he, hwt, hpre⟩ := ih h'
        refine ⟨q :: pre, tr, suf, ?_, hwt, ?_⟩
        · rw [he]
          rfl
        · intro p hp
          rcases List.mem_cons.mp hp with hp | hp
          · rw [hp]
            exact hw'
          · exact hpre p hp

lemma matchTrack_none_iff (tracks : List (ℕ × Track)) (d : Detection) :
    matchTrack tracks d = none ↔ ∀ p ∈ tracks, withinTol p.2 d = false := by
  simp [matchTrack, List.find?_eq_none]

lemma updateTrack_center_bbox (classify : Detection → String) (ts : ℚ)
    (d : Detection) (tr : Track) :
    (updateTrack classify ts d tr).1.center = (d.cx, d.cy) ∧
    (updateTrack classify ts d tr).1.bbox = (d.x1, d.y1, d.x2, d.y2) := by
  unfold updateTrack finalizeStep armStep applyDet
  constructor <;> (split <;> split <;> rfl)

/-- C8: the tracker matches each detection, in frame order, to the first
track in stable dict order within the per-axis tolerance on both axes
(strictly, or to no track if none qualifies), updates the matched track's
center and bbox in place without consuming an identity, creates a track
with the fresh identity next_id otherwise, and at the end of the frame
keeps exactly the tracks touched this frame; a single smoothly-moving
detection keeps one stable id across two frames. -/
theorem tracker_assignment_spec :
    (∀ (tracks : List (ℕ × Track)) (d : Detection) (tid : ℕ),
        matchTrack tracks d = some tid →
        ∃ pre tr suf, tracks = pre ++ (tid, tr) :: suf ∧ withinTol tr d = true ∧
          ∀ p ∈ pre, withinTol p.2 d = false) ∧
    (∀ (tracks : List (ℕ × Track)) (d : Detection),
        matchTrack tracks d = none ↔ ∀ p ∈ tracks, withinTol p.2 d = false) ∧
    (∀ (classify : Detection → String) (ts : ℚ) (d : Detection) (tr : Track),
        (updateTrack classify ts d tr).1.center = (d.cx, d.cy) ∧
        (updateTrack classify ts d tr).1.bbox = (d.x1, d.y1, d.x2, d.y2)) ∧
    (∀ (classify : Detection → String) (ts : ℚ) (acc : FrameAcc) (d : Detection) (tid : ℕ),
        matchTrack acc.st.tracks d = some tid →
        (processDet classify ts acc d).st.next_id = acc.st.next_id ∧
        (processDet classify ts acc d).created = acc.created ∧
        (processDet classify ts acc d).st.tracks =
          updateAssoc acc.st.tracks tid
            (updateTrack classify ts d ((acc.st.tracks.lookup tid).getD (newTrack d))).1) ∧
    (∀ (classify : Detection → String) (ts : ℚ) (acc : FrameAcc) (d : Detection),
        matchTrack acc.st.tracks d = none →
        (processDet classify ts acc d).st.tracks =
          acc.st.tracks ++ [(acc.st.next_id, (updateTrack classify ts d (newTrack d)).1)] ∧
        (processDet classify ts acc d).st.next_id = acc.st.next_id + 1 ∧
        (processDet classify ts acc d).created = acc.created ++ [acc.st.next_id]) ∧
    (∀ (classify : Detection → String) (ts : ℚ) (st : SState),
        (processFrame classify ts [] st).st.tracks = []) ∧
    (∀ (classify : Detection → String) (ts : ℚ) (dets : List Detection) (st : SState),
        ∀ p ∈ (processFrame classify ts dets st).st.tracks,
          p.1 ∈ (dets.foldl (processDet classify ts) ⟨st, [], [], []⟩).touched) ∧
    ((runSession classify0 [(1, [detAt 300 100]), (2, [detAt 350 100])]).created = [0] ∧
     (runSession classify0 [(1, [detAt 300 100]), (2, [detAt 350 100])]).st.tracks.map
       Prod.fst = [0]) := by
  refine ⟨matchTrack_some_first, matchTrack_none_iff, updateTrack_center_bbox,
    ?_, ?_, ?_, ?_, ?_, ?_⟩
  · intro classify ts acc d tid hm
    refine ⟨?_, ?_, ?_⟩ <;> simp [processDet, hm]
  · intro classify ts acc d hm
    refine ⟨?_, ?_, ?_⟩ <;> simp [processDet, hm]
  · intro classify ts st
    rfl
  · intro classify ts dets st p hp
    rw [processFrame_def, List.mem_filterMap] at hp
    obtain ⟨tid, htid, hf⟩ := hp
    obtain ⟨tr, _, hpe⟩ := Option.map_eq_some'.mp hf
    have hp1 : p.1 = tid := by rw [← hpe]
    rw [hp1]
    exact htid
  · decide
  · decide

/-- Witness for tracker_assignment_spec: a detection within tolerance of
the single stored track exercises the matched branch. -/
theorem tracker_assignment_spec_witness :
    matchTrack accW.st.tracks (detAt 320 110) = some 0 ∧
    ((processDet classify0 5 accW (detAt 320 110)).st.next_id = accW.st.next_id ∧
     (processDet classify0 5 accW (detAt 320 110)).created = accW.created ∧
     (processDet classify0 5 accW (detAt 320 110)).st.tracks =
       updateAssoc accW.st.tracks 0
         (updateTrack classify0 5 (detAt 320 110)
           ((accW.st.tracks.lookup 0).getD (newTrack (detAt 320 110)))).1) :=
  ⟨by decide,
   tracker_assignment_spec.2.2.2.1 classify0 5 accW (detAt 320 110) 0 (by decide)⟩

end SpeedCore
